import Mathlib

/-!
Shallow embedding of the streaming pipeline orchestrator of `src/main.py`
(`process_file_in_background`, `store_component_in_db`, `get_component_from_db`)
together with the Python string cleaning applied to raw stream events.

Python `None` and JSON `null` are both modelled by `JVal.null`; a decoded
event payload (the result of `json.loads` on a cleaned event text) is an
association list of string keys to `JVal` values; the Mongo collections are
modelled as one insertion-ordered list of records carrying their collection
name, since `insert_one` appends and `find_one` returns the first match in
insertion (natural) order.
-/

namespace Boq

/-- A JSON value, as produced by `json.loads`. -/
inductive JVal where
  | null : JVal
  | bool (b : Bool) : JVal
  | num (n : Int) : JVal
  | str (s : String) : JVal
  | arr (elems : List JVal) : JVal
  | obj (fields : List (String × JVal)) : JVal

/-- Python truthiness of a JSON-decoded value (`if boq_data:` at line 124). -/
def JVal.truthy : JVal → Bool
  | .null => false
  | .bool b => b
  | .num n => n != 0
  | .str s => s != ""
  | .arr l => !l.isEmpty
  | .obj l => !l.isEmpty

/-- A decoded event payload: the mapping `parsed` of `src/main.py`. -/
abbrev Payload := List (String × JVal)

/-- Dictionary lookup: `parsed[k]` / `parsed.get(k)`; `none` models `k not in parsed`. -/
def pget (k : String) : Payload → Option JVal
  | [] => none
  | (k', v) :: rest => if k' = k then some v else pget k rest

/-- One document of the Mongo store (`doc` built in `store_component_in_db`),
together with the name of the collection it was inserted into. -/
structure DBRec where
  collection : String
  user_id : String
  session_id : String
  data : JVal
  status : String

/-- `store_component_in_db` (src/main.py lines 48-68): `insert_one` appends a
new document; nothing is overwritten. -/
def store_component_in_db (db : List DBRec) (collection_name : String)
    (component_data : JVal) (user_id session_id status : String) : List DBRec :=
  db ++ [⟨collection_name, user_id, session_id, component_data, status⟩]

/-- `find_one({"user_id": u, "session_id": s})` on collection `name`: the first
record of the insertion-ordered store matching the key. -/
def dbFind (name u s : String) : List DBRec → Option DBRec
  | [] => none
  | r :: rs =>
    if r.collection = name ∧ r.user_id = u ∧ r.session_id = s then some r
    else dbFind name u s rs

/-- Number of stored records for one (collection, user, session) key. -/
def dbCount (name u s : String) : List DBRec → Nat
  | [] => 0
  | r :: rs =>
    (if r.collection = name ∧ r.user_id = u ∧ r.session_id = s then 1 else 0)
    + dbCount name u s rs

/-- The `{status, data}` dictionary returned by `get_component_from_db`. -/
structure FetchResult where
  status : String
  data : JVal

/-- `get_component_from_db` (src/main.py lines 70-82). -/
def get_component_from_db (db : List DBRec) (collection_name user_id session_id : String) :
    FetchResult :=
  match dbFind collection_name user_id session_id db with
  | some r => ⟨r.status, r.data⟩
  | none => ⟨"pending", JVal.arr []⟩

/-- `REQUIRED_COMPONENTS` (src/main.py lines 19-23). -/
def REQUIRED_COMPONENTS : List String :=
  ["component_geometry", "pile_details", "reinforcement_details",
   "material_specs", "seismic_arrestors", "structural_notes",
   "compliance_parameters", "boq"]

/-- One event pulled off `app_stream`. `malformed` models an event whose inner
processing (`event["content"]["parts"][0]["text"]` access or `json.loads`)
raises: the inner `except` at line 140 swallows it and the loop continues. -/
inductive Ev where
  | malformed : Ev
  | payload (m : Payload) : Ev

/-- The local state of one execution of the `try` body of
`process_file_in_background` (lines 89-138). `broke = true` records that one
of the two `break` statements has run. -/
structure LoopState where
  parsed_components : List String
  boq_data : JVal
  validation_result : Payload
  validdation_count : Nat
  db : List DBRec
  broke : Bool

/-- Lines 89-93 of src/main.py: fresh local state over the ambient store. -/
def initState (db0 : List DBRec) : LoopState :=
  ⟨[], JVal.null, [], 0, db0, false⟩

/-- Python `validation_result.get("validation") == "pass"`: true exactly for
the JSON string value "pass". -/
def isPassVal : Option JVal → Bool
  | some (.str s) => s == "pass"
  | _ => false

/-- The `for key in REQUIRED_COMPONENTS` loop of lines 134-138, over an
arbitrary remaining key list. -/
def storeUnitsAux (u s : String) (m : Payload) : List String → LoopState → LoopState
  | [], st => st
  | k :: ks, st =>
    let st' :=
      if (pget k m).isSome = true ∧ k ∉ st.parsed_components ∧ k ≠ "boq" then
        { st with
          db := store_component_in_db st.db k ((pget k m).getD JVal.null) u s "completed",
          parsed_components := st.parsed_components ++ [k] }
      else st
    storeUnitsAux u s m ks st'

def storeUnits (u s : String) (m : Payload) (st : LoopState) : LoopState :=
  storeUnitsAux u s m REQUIRED_COMPONENTS st

/-- Lines 104-138: processing of one decoded event. The `boq` capture of lines
115-117 runs before the `validation` branch of lines 119-133; the component
loop of lines 134-138 runs only when no `validation` key is present (the
branch ends in `continue` / `break`). -/
def stepEvent (u s : String) (st : LoopState) : Ev → LoopState
  | .malformed => st
  | .payload m =>
    let st1 :=
      match pget "boq" m with
      | some v => { st with boq_data := v }
      | none => st
    match pget "validation" m with
    | some _ =>
      let st2 := { st1 with
        validdation_count := st1.validdation_count + 1,
        validation_result := m }
      if isPassVal (pget "validation" m) = true ∧ st2.boq_data.truthy = true then
        { st2 with
          db := store_component_in_db st2.db "boq" st2.boq_data u s "completed",
          parsed_components := st2.parsed_components ++ ["boq"],
          broke := true }
      else if st2.validdation_count = 3 then
        { st2 with
          db := store_component_in_db st2.db "boq" st2.boq_data u s "completed",
          parsed_components := st2.parsed_components ++ ["boq"],
          broke := true }
      else st2
    | none => storeUnits u s m st1

/-- The `for event in app_stream` loop (line 102): events are pulled in order
until the list is exhausted or a `break` has run. -/
def runEvents (u s : String) (st : LoopState) : List Ev → LoopState
  | [] => st
  | e :: es => if st.broke = true then st else runEvents u s (stepEvent u s st e) es

/-- The rollback loop of lines 146-150: for every expected component name not
in `parsed_components`, insert a record with payload `[]` and status
`failed`. -/
def rollbackAux (u s : String) (parsed : List String) : List String → List DBRec → List DBRec
  | [], db => db
  | k :: ks, db =>
    rollbackAux u s parsed ks
      (if k ∈ parsed then db else store_component_in_db db k (JVal.arr []) u s "failed")

def rollbackStores (u s : String) (parsed : List String) (db : List DBRec) : List DBRec :=
  rollbackAux u s parsed REQUIRED_COMPONENTS db

/-- Behaviour of the event stream during one attempt: the events it yields,
and whether pulling the next event after them raises (`raisesAfter = true`)
or the stream is exhausted normally (`raisesAfter = false`). A failure of
`stream_query` itself is the case `events = []`, `raisesAfter = true`. -/
structure StreamSpec where
  events : List Ev
  raisesAfter : Bool

/-- Result of one call of the body of `process_file_in_background`: the store,
whether the temporary file still exists, and whether an exception escaped the
call. Every exception is caught by the `except` of line 143 (which performs
the rollback) or the inner handlers, and the `finally` of lines 159-165
guards its own cleanup, so the body always returns normally. -/
structure BodyOut where
  db : List DBRec
  fileExists : Bool
  escaped : Bool

/-- One call of the (undecorated) body of `process_file_in_background`
(lines 85-165). If the stream raises and no `break` happened, the `except`
branch performs the rollback; the `finally` removes the temporary file when
it exists. -/
def process_body (u s : String) (db0 : List DBRec) (fileExists0 : Bool)
    (spec : StreamSpec) : BodyOut :=
  let fin := runEvents u s (initState db0) spec.events
  let db' :=
    if spec.raisesAfter = true ∧ fin.broke = false then
      rollbackStores u s fin.parsed_components fin.db
    else fin.db
  ⟨db', if fileExists0 then false else fileExists0, false⟩

/-- The tenacity `retry(stop=stop_after_attempt(3), wait=wait_fixed(60))`
driver: call the body; if and only if an exception escaped the call, wait the
fixed delay and re-attempt (with the store and file state left by the failed
attempt), up to the attempt budget. One `StreamSpec` per potential attempt
describes the stream's behaviour on that attempt. -/
def runAttempts (u s : String) : Nat → List StreamSpec → List DBRec → Bool → List DBRec × Bool
  | 0, _, db, fs => (db, fs)
  | _ + 1, [], db, fs => (db, fs)
  | n + 1, spec :: rest, db, fs =>
    let o := process_body u s db fs spec
    if o.escaped = true then runAttempts u s n rest o.db o.fileExists
    else (o.db, o.fileExists)

/-- `process_file_in_background` as decorated (line 84): attempt budget 3. -/
def process_file_in_background (u s : String) (specs : List StreamSpec)
    (db0 : List DBRec) (fileExists0 : Bool) : List DBRec × Bool :=
  runAttempts u s 3 specs db0 fileExists0

/-!
The Event Decoder: the Python string cleaning of lines 106-109 applied to a
raw event text before `json.loads`. Texts are modelled as `List Char`.
-/

/-- The characters removed by Python `str.strip()` with no argument. -/
def pyWs (c : Char) : Bool :=
  c = ' ' ∨ c = '\t' ∨ c = '\n' ∨ c = '\r' ∨ c = '\x0b' ∨ c = '\x0c'

def pyLStrip (s : List Char) : List Char := s.dropWhile pyWs

def pyRStrip (s : List Char) : List Char := (s.reverse.dropWhile pyWs).reverse

/-- Python `str.strip()`: whitespace removed from both ends. -/
def pyStrip (s : List Char) : List Char := pyRStrip (pyLStrip s)

/-- The backtick character. -/
def bq : Char := Char.ofNat 96

/-- The text of the opening fence marker replaced at line 107. -/
def fenceMarker : List Char := [bq, bq, bq, 'j', 's', 'o', 'n']

/-- The closing fence checked at line 108. -/
def fence3 : List Char := [bq, bq, bq]

/-- Python `part_text.replace("```json", "")`: every non-overlapping
occurrence of the marker, scanned left to right, is removed. The fuel
argument bounds the recursion; `replaceMarker` supplies the list length,
which always suffices because each step consumes at least one character. -/
def replaceMarkerF : Nat → List Char → List Char
  | _, [] => []
  | 0, s => s
  | f + 1, c :: cs =>
    if fenceMarker.isPrefixOf (c :: cs) then replaceMarkerF f (cs.drop 6)
    else c :: replaceMarkerF f cs

def replaceMarker (s : List Char) : List Char := replaceMarkerF s.length s

/-- Whether the marker occurs anywhere in the text. -/
def hasMarker : List Char → Bool
  | [] => false
  | c :: cs => fenceMarker.isPrefixOf (c :: cs) || hasMarker cs

/-- Lines 106-109 of src/main.py: the cleaning applied to `part_text` before
`json.loads`. The replacement at line 107 is global, and the closing-fence
check at line 108 looks at the text the first branch produced. -/
def cleanText (s : List Char) : List Char :=
  let s1 := if fenceMarker.isPrefixOf s then pyStrip (replaceMarker s) else s
  if fence3.isSuffixOf s1 then pyStrip (s1.take (s1.length - 3)) else s1

/-- A payload wrapped in leading and trailing fenced code-block markers. -/
def wrapFence (p : List Char) : List Char := fenceMarker ++ p ++ fence3

/-- Number of records of the store whose status is `failed`. -/
def failedRecordCount (db : List DBRec) : Nat :=
  (db.filter (fun r => r.status == "failed")).length

/-- A stream attempt that yields one report and then one passing verdict:
a fully successful run. -/
def scenarioSuccessEvents : List Ev :=
  [.payload [("boq", .arr [.str "item"])], .payload [("validation", .str "pass")]]

/-- One failing validation verdict carrying no other key. -/
def failingVerdict : Ev := .payload [("validation", .str "fail")]

/-!  Basic facts about the persistence gateway model. -/

theorem dbFind_append (name u s : String) (db1 db2 : List DBRec) :
    dbFind name u s (db1 ++ db2) =
      match dbFind name u s db1 with
      | some r => some r
      | none => dbFind name u s db2 := by
  induction db1 with
  | nil => simp [dbFind]
  | cons r rs ih =>
    by_cases h : r.collection = name ∧ r.user_id = u ∧ r.session_id = s
    · simp [dbFind, h]
    · simp [dbFind, h, ih]

theorem dbCount_append (name u s : String) (db1 db2 : List DBRec) :
    dbCount name u s (db1 ++ db2) = dbCount name u s db1 + dbCount name u s db2 := by
  induction db1 with
  | nil => simp [dbCount]
  | cons r rs ih => simp [dbCount, ih]; omega

/-- C2, counterexample: calling `store_component_in_db` twice with the same
(run, unit name) key leaves two records in the store, not one — `insert_one`
does not have upsert semantics. -/
theorem C2_counterexample :
    ¬ (dbCount "boq" "u1" "s1"
        (store_component_in_db
          (store_component_in_db [] "boq" (JVal.str "a") "u1" "s1" "completed")
          "boq" (JVal.str "b") "u1" "s1" "completed") ≤ 1) := by
  decide

/-- C2, amended: `store_component_in_db` has insert (append) semantics, not
upsert: every call adds exactly one record for its key, so a repeated call
with the same key accumulates a duplicate, and a fetch keeps returning the
record that was inserted first — a later write with the same key never
overwrites the earlier one. -/
theorem C2_store_insert_semantics (db : List DBRec) (n u s stt : String) (d : JVal) :
    dbCount n u s (store_component_in_db db n d u s stt) = dbCount n u s db + 1 ∧
    get_component_from_db (store_component_in_db db n d u s stt) n u s =
      (match dbFind n u s db with
       | some r => ⟨r.status, r.data⟩
       | none => ⟨stt, d⟩) := by
  constructor
  · unfold store_component_in_db
    rw [dbCount_append]
    simp [dbCount]
  · unfold get_component_from_db store_component_in_db
    rw [dbFind_append]
    cases h : dbFind n u s db with
    | some r => rfl
    | none => simp [dbFind]

/-- C9: fetching a unit that was never recorded for a given run returns
exactly the default `{status: "pending", data: []}` result. -/
theorem C9_fetch_default (db : List DBRec) (n u s : String)
    (h : dbFind n u s db = none) :
    get_component_from_db db n u s = ⟨"pending", JVal.arr []⟩ := by
  unfold get_component_from_db
  rw [h]

/-- Witness for C9 at the empty store. -/
theorem C9_fetch_default_witness :
    dbFind "boq" "u1" "s1" ([] : List DBRec) = none ∧
    get_component_from_db [] "boq" "u1" "s1" = ⟨"pending", JVal.arr []⟩ :=
  ⟨rfl, C9_fetch_default [] "boq" "u1" "s1" rfl⟩

/-- C10: after every run of the background processor — whatever the specs of
the stream and however many attempts were budgeted — the temporary file no
longer exists once the call returns: the `finally` block deletes it when
present. -/
theorem C10_temp_file_deleted (u s : String) (spec : StreamSpec)
    (rest : List StreamSpec) (db0 : List DBRec) (fs0 : Bool) :
    (process_file_in_background u s (spec :: rest) db0 fs0).2 = false := by
  cases fs0 <;> rfl

/-- C1, behaviour at the failing input: the stream raises on the first
attempt while a second attempt would succeed fully, yet the final store is
the rollback of the first attempt (all eight units `failed`, report unit
included), not the state of a single successful run — because the `except`
block swallows the exception and rolls back at once, the tenacity retry
around the function never re-attempts. -/
theorem C1_no_outer_retry :
    (get_component_from_db (process_file_in_background "u1" "s1"
        [⟨[], true⟩, ⟨scenarioSuccessEvents, false⟩] [] true).1 "boq" "u1" "s1").status
      = "failed" ∧
    failedRecordCount (process_file_in_background "u1" "s1"
        [⟨[], true⟩, ⟨scenarioSuccessEvents, false⟩] [] true).1 = 8 ∧
    (get_component_from_db (process_file_in_background "u1" "s1"
        [⟨scenarioSuccessEvents, false⟩] [] true).1 "boq" "u1" "s1").status
      = "completed" ∧
    failedRecordCount (process_file_in_background "u1" "s1"
        [⟨scenarioSuccessEvents, false⟩] [] true).1 = 0 :=
  ⟨rfl, rfl, rfl, rfl⟩

/-- C3, counterexample: a stream of three failing verdicts with no report
ever produced is not treated as a run failure — the code persists the report
unit (`boq`) with status `completed` and a null payload, and no failed
record is written for any unit. -/
theorem C3_counterexample :
    (get_component_from_db (process_body "u1" "s1" [] true
        ⟨[failingVerdict, failingVerdict, failingVerdict], false⟩).db
        "boq" "u1" "s1").status = "completed" ∧
    (get_component_from_db (process_body "u1" "s1" [] true
        ⟨[failingVerdict, failingVerdict, failingVerdict], false⟩).db
        "boq" "u1" "s1").data = JVal.null ∧
    failedRecordCount (process_body "u1" "s1" [] true
        ⟨[failingVerdict, failingVerdict, failingVerdict], false⟩).db = 0 :=
  ⟨rfl, rfl, rfl⟩

/-- C7, counterexample: an event whose payload carries both the verdict
marker and a `boq` key is not handled purely as a verdict — its `boq` value
is still captured as the last-seen report, so a key other than the verdict
marker is captured from a verdict event. -/
theorem C7_counterexample :
    (stepEvent "u1" "s1" (initState [])
        (.payload [("validation", JVal.str "fail"), ("boq", JVal.str "X")])).boq_data
      = JVal.str "X" ∧
    (initState ([] : List DBRec)).boq_data = JVal.null ∧
    JVal.str "X" ≠ JVal.null :=
  ⟨rfl, rfl, fun h => nomatch h⟩

/-!  The rollback loop characterised: it appends, in order, one failed record
for every expected name not in the recorded set, and touches nothing else. -/

theorem rollbackAux_eq (u s : String) (parsed : List String) :
    ∀ (L : List String) (db : List DBRec),
      rollbackAux u s parsed L db =
        db ++ (L.filter (fun k => !decide (k ∈ parsed))).map
          (fun k => ⟨k, u, s, JVal.arr [], "failed"⟩) := by
  intro L
  induction L with
  | nil => intro db; simp [rollbackAux]
  | cons k ks ih =>
    intro db
    by_cases hk : k ∈ parsed
    · simp [rollbackAux, hk, ih]
    · simp [rollbackAux, hk, ih, store_component_in_db]

theorem dbFind_rollback_extra_none (u s k : String) (parsed : List String) (hk : k ∈ parsed) :
    ∀ L : List String,
      dbFind k u s ((L.filter (fun q => !decide (q ∈ parsed))).map
        (fun q => ⟨q, u, s, JVal.arr [], "failed"⟩)) = none := by
  intro L
  induction L with
  | nil => rfl
  | cons q qs ih =>
    by_cases hq : q ∈ parsed
    · simp [hq, ih]
    · have hqk : q ≠ k := fun h => hq (h ▸ hk)
      simp [hq, dbFind, hqk, ih]

/-- C5: when rollback fires, every expected unit name not in the recorded
set receives a record with status `failed` and empty payload, every unit
already in the recorded set keeps its previous fetch result (nothing is
demoted), and every previously stored record remains in the store. -/
theorem C5_rollback_completeness (u s : String) (parsed : List String)
    (db : List DBRec) (k : String) (hk : k ∈ REQUIRED_COMPONENTS) :
    (k ∉ parsed →
      (⟨k, u, s, JVal.arr [], "failed"⟩ : DBRec) ∈ rollbackStores u s parsed db) ∧
    (k ∈ parsed →
      get_component_from_db (rollbackStores u s parsed db) k u s
        = get_component_from_db db k u s) ∧
    (∀ r ∈ db, r ∈ rollbackStores u s parsed db) := by
  refine ⟨?_, ?_, ?_⟩
  · intro hkp
    rw [rollbackStores, rollbackAux_eq]
    refine List.mem_append_right _ ?_
    exact List.mem_map.mpr ⟨k, List.mem_filter.mpr ⟨hk, by simp [hkp]⟩, rfl⟩
  · intro hkp
    rw [rollbackStores, rollbackAux_eq]
    unfold get_component_from_db
    rw [dbFind_append]
    cases h : dbFind k u s db with
    | some r => rfl
    | none => rw [dbFind_rollback_extra_none u s k parsed hkp]
  · intro r hr
    rw [rollbackStores, rollbackAux_eq]
    exact List.mem_append_left _ hr

/-- Witness for C5: rollback over a store holding a completed report, with
only the report unit recorded. -/
theorem C5_rollback_completeness_witness :
    ("pile_details" ∈ REQUIRED_COMPONENTS) ∧
    (⟨"pile_details", "u1", "s1", JVal.arr [], "failed"⟩ : DBRec) ∈
      rollbackStores "u1" "s1" ["boq"] [⟨"boq", "u1", "s1", JVal.str "x", "completed"⟩] ∧
    get_component_from_db
        (rollbackStores "u1" "s1" ["boq"] [⟨"boq", "u1", "s1", JVal.str "x", "completed"⟩])
        "boq" "u1" "s1"
      = get_component_from_db [⟨"boq", "u1", "s1", JVal.str "x", "completed"⟩] "boq" "u1" "s1" := by
  have hk : "pile_details" ∈ REQUIRED_COMPONENTS := by decide
  have h := C5_rollback_completeness "u1" "s1" ["boq"]
    [⟨"boq", "u1", "s1", JVal.str "x", "completed"⟩] "pile_details" hk
  have h2 := C5_rollback_completeness "u1" "s1" ["boq"]
    [⟨"boq", "u1", "s1", JVal.str "x", "completed"⟩] "boq" (by decide)
  exact ⟨hk, h.1 (by decide), h2.2.1 (by decide)⟩

/-!  The streaming-loop invariant: `parsed_components` stays duplicate-free,
contains `"boq"` only once a `break` has run, and the store holds exactly one
run-owned record per recorded name. -/

theorem storeUnitsAux_fields (u s : String) (m : Payload) :
    ∀ (L : List String) (st : LoopState),
      (storeUnitsAux u s m L st).broke = st.broke ∧
      (storeUnitsAux u s m L st).boq_data = st.boq_data ∧
      (storeUnitsAux u s m L st).validdation_count = st.validdation_count := by
  intro L
  induction L with
  | nil => intro st; exact ⟨rfl, rfl, rfl⟩
  | cons k ks ih =>
    intro st
    simp only [storeUnitsAux]
    by_cases h : (pget k m).isSome = true ∧ k ∉ st.parsed_components ∧ k ≠ "boq"
    · simp only [if_pos h]; exact ih _
    · simp only [if_neg h]; exact ih st

theorem dbCount_extend (u s : String) (db : List DBRec) (parsed : List String)
    (f : String → Nat) (k : String) (d : JVal) (stt : String)
    (h3 : ∀ q, dbCount q u s db = f q + (if q ∈ parsed then 1 else 0))
    (hk : k ∉ parsed) :
    ∀ q, dbCount q u s (db ++ [⟨k, u, s, d, stt⟩])
      = f q + (if q ∈ parsed ++ [k] then 1 else 0) := by
  intro q
  rw [dbCount_append]
  by_cases hq : q = k
  · subst hq
    simp [dbCount, h3 q, hk]
  · have hnc : ¬(k = q ∧ u = u ∧ s = s) := fun hc => hq hc.1.symm
    simp [dbCount, hnc, h3 q, List.mem_append, hq, Ne.symm hq]

theorem nodup_append_singleton {l : List String} {k : String}
    (h1 : l.Nodup) (h2 : k ∉ l) : (l ++ [k]).Nodup := by
  simp [List.nodup_append, h1, h2]

theorem storeUnitsAux_inv (u s : String) (m : Payload) (f : String → Nat) :
    ∀ (L : List String) (st : LoopState),
      st.parsed_components.Nodup →
      "boq" ∉ st.parsed_components →
      (∀ q, dbCount q u s st.db = f q + (if q ∈ st.parsed_components then 1 else 0)) →
      ((storeUnitsAux u s m L st).parsed_components.Nodup ∧
       "boq" ∉ (storeUnitsAux u s m L st).parsed_components ∧
       (∀ q, dbCount q u s (storeUnitsAux u s m L st).db
          = f q + (if q ∈ (storeUnitsAux u s m L st).parsed_components then 1 else 0))) := by
  intro L
  induction L with
  | nil => intro st h1 h2 h3; exact ⟨h1, h2, h3⟩
  | cons k ks ih =>
    intro st h1 h2 h3
    simp only [storeUnitsAux]
    by_cases h : (pget k m).isSome = true ∧ k ∉ st.parsed_components ∧ k ≠ "boq"
    · simp only [if_pos h]
      refine ih _ (nodup_append_singleton h1 h.2.1) ?_ ?_
      · simp [List.mem_append, h2]
        exact fun hc => h.2.2 hc.symm
      · exact dbCount_extend u s st.db st.parsed_components f k _ _ h3 h.2.1
    · simp only [if_neg h]
      exact ih st h1 h2 h3

theorem stepEvent_inv (u s : String) (e : Ev) (st : LoopState) (f : String → Nat)
    (h1 : st.parsed_components.Nodup)
    (h2 : "boq" ∉ st.parsed_components)
    (h3 : ∀ q, dbCount q u s st.db = f q + (if q ∈ st.parsed_components then 1 else 0)) :
    (stepEvent u s st e).parsed_components.Nodup ∧
    ((stepEvent u s st e).broke = false → "boq" ∉ (stepEvent u s st e).parsed_components) ∧
    (∀ q, dbCount q u s (stepEvent u s st e).db
       = f q + (if q ∈ (stepEvent u s st e).parsed_components then 1 else 0)) := by
  cases e with
  | malformed => exact ⟨h1, fun _ => h2, h3⟩
  | payload m =>
    cases hB : pget "boq" m with
    | some v =>
      cases hV : pget "validation" m with
      | some w =>
        simp only [stepEvent, hB, hV]
        split_ifs with hc1 hc2
        · exact ⟨nodup_append_singleton h1 h2, by simp,
            dbCount_extend u s st.db st.parsed_components f "boq" _ _ h3 h2⟩
        · exact ⟨nodup_append_singleton h1 h2, by simp,
            dbCount_extend u s st.db st.parsed_components f "boq" _ _ h3 h2⟩
        · exact ⟨h1, fun _ => h2, h3⟩
      | none =>
        simp only [stepEvent, hB, hV, storeUnits]
        obtain ⟨g1, g2, g3⟩ :=
          storeUnitsAux_inv u s m f REQUIRED_COMPONENTS { st with boq_data := v } h1 h2 h3
        exact ⟨g1, fun _ => g2, g3⟩
    | none =>
      cases hV : pget "validation" m with
      | some w =>
        simp only [stepEvent, hB, hV]
        split_ifs with hc1 hc2
        · exact ⟨nodup_append_singleton h1 h2, by simp,
            dbCount_extend u s st.db st.parsed_components f "boq" _ _ h3 h2⟩
        · exact ⟨nodup_append_singleton h1 h2, by simp,
            dbCount_extend u s st.db st.parsed_components f "boq" _ _ h3 h2⟩
        · exact ⟨h1, fun _ => h2, h3⟩
      | none =>
        simp only [stepEvent, hB, hV, storeUnits]
        obtain ⟨g1, g2, g3⟩ := storeUnitsAux_inv u s m f REQUIRED_COMPONENTS st h1 h2 h3
        exact ⟨g1, fun _ => g2, g3⟩

theorem runEvents_inv (u s : String) (f : String → Nat) :
    ∀ (events : List Ev) (st : LoopState),
      st.parsed_components.Nodup →
      (st.broke = false → "boq" ∉ st.parsed_components) →
      (∀ q, dbCount q u s st.db = f q + (if q ∈ st.parsed_components then 1 else 0)) →
      ((runEvents u s st events).parsed_components.Nodup ∧
       ((runEvents u s st events).broke = false →
          "boq" ∉ (runEvents u s st events).parsed_components) ∧
       (∀ q, dbCount q u s (runEvents u s st events).db
          = f q + (if q ∈ (runEvents u s st events).parsed_components then 1 else 0))) := by
  intro events
  induction events with
  | nil => intro st h1 h2 h3; exact ⟨h1, h2, h3⟩
  | cons e es ih =>
    intro st h1 h2 h3
    by_cases hb : st.broke = true
    · simp only [runEvents, if_pos hb]
      exact ⟨h1, h2, h3⟩
    · simp only [runEvents, if_neg hb]
      have hb' : st.broke = false := by
        cases hbb : st.broke
        · rfl
        · exact absurd hbb hb
      obtain ⟨g1, g2, g3⟩ := stepEvent_inv u s e st f h1 (h2 hb') h3
      exact ih _ g1 g2 g3

theorem dbCount_map_failed (u s k : String) :
    ∀ L : List String,
      dbCount k u s (L.map (fun q => ⟨q, u, s, JVal.arr [], "failed"⟩))
        = L.count k := by
  intro L
  induction L with
  | nil => rfl
  | cons q qs ih =>
    by_cases hq : q = k
    · subst hq
      simp [dbCount, List.count_cons, ih, Nat.add_comm]
    · have hnc : ¬(q = k ∧ u = u ∧ s = s) := fun hc => hq hc.1
      simp [dbCount, hnc, List.count_cons, ih, hq, Ne.symm hq]

/-- C6: within one run over a store holding no record for the run's key,
at most one record is ever persisted per unit name — an event naming an
already-recorded unit is not re-persisted — and the recorded set never
acquires a duplicate name. -/
theorem C6_at_most_one_record (u s : String) (events : List Ev) (raises fs0 : Bool)
    (db0 : List DBRec) (k : String) (h : dbCount k u s db0 = 0) :
    dbCount k u s (process_body u s db0 fs0 ⟨events, raises⟩).db ≤ 1 ∧
    (runEvents u s (initState db0) events).parsed_components.Nodup := by
  obtain ⟨h1, h2, h3⟩ :=
    runEvents_inv u s (fun q => dbCount q u s db0) events (initState db0)
      List.nodup_nil (fun _ => List.not_mem_nil _) (fun q => by simp [initState])
  set fin := runEvents u s (initState db0) events with hfin
  refine ⟨?_, h1⟩
  have hcount : dbCount k u s fin.db ≤ 1 := by
    rw [h3 k, h]
    split <;> omega
  simp only [process_body]
  rw [← hfin]
  split
  · rw [rollbackStores, rollbackAux_eq, dbCount_append, dbCount_map_failed]
    by_cases hk : k ∈ fin.parsed_components
    · have hzero :
          (REQUIRED_COMPONENTS.filter
            (fun q => !decide (q ∈ fin.parsed_components))).count k = 0 := by
        rw [List.count_eq_zero]
        intro hmem
        have := List.of_mem_filter hmem
        simp [hk] at this
      rw [hzero]
      omega
    · have hle : (REQUIRED_COMPONENTS.filter
          (fun q => !decide (q ∈ fin.parsed_components))).count k
            ≤ REQUIRED_COMPONENTS.count k :=
        (List.filter_sublist _).count_le k
      have hone : REQUIRED_COMPONENTS.count k ≤ 1 :=
        List.nodup_iff_count_le_one.mp (by decide) k
      have hz : dbCount k u s fin.db = 0 := by
        rw [h3 k, h]
        simp [hk]
      omega
  · exact hcount

/-- Witness for C6: a run over the empty store that records the report
unit once. -/
theorem C6_at_most_one_record_witness :
    dbCount "boq" "u1" "s1"
      (process_body "u1" "s1" [] true ⟨scenarioSuccessEvents, false⟩).db ≤ 1 ∧
    (runEvents "u1" "s1" (initState []) scenarioSuccessEvents).parsed_components.Nodup :=
  C6_at_most_one_record "u1" "s1" scenarioSuccessEvents false true [] "boq" rfl

/-!  The validation loop: verdict bookkeeping along a stream. -/

/-- Number of events of the stream carrying the verdict marker key. -/
def verdictCount : List Ev → Nat
  | [] => 0
  | .malformed :: es => verdictCount es
  | .payload m :: es =>
    (if (pget "validation" m).isSome = true then 1 else 0) + verdictCount es

/-- No verdict of the stream is a passing one. -/
def neverAcceptsB : List Ev → Bool
  | [] => true
  | .malformed :: es => neverAcceptsB es
  | .payload m :: es => !(isPassVal (pget "validation" m)) && neverAcceptsB es

/-- No event of the stream carries the report (`boq`) key. -/
def noReportB : List Ev → Bool
  | [] => true
  | .malformed :: es => noReportB es
  | .payload m :: es => !(pget "boq" m).isSome && noReportB es

theorem runEvents_broke (u s : String) (st : LoopState) (h : st.broke = true) :
    ∀ es : List Ev, runEvents u s st es = st := by
  intro es
  cases es with
  | nil => rfl
  | cons e es' => simp [runEvents, h]

theorem runEvents_append (u s : String) :
    ∀ (a b : List Ev) (st : LoopState),
      runEvents u s st (a ++ b) = runEvents u s (runEvents u s st a) b := by
  intro a
  induction a with
  | nil => intro b st; rfl
  | cons e a' ih =>
    intro b st
    rw [List.cons_append]
    by_cases hb : st.broke = true
    · rw [runEvents_broke u s st hb, runEvents_broke u s st hb,
        runEvents_broke u s st hb]
    · simp only [runEvents, if_neg hb]
      exact ih b (stepEvent u s st e)

theorem neverAcceptsB_append (a b : List Ev) :
    neverAcceptsB (a ++ b) = (neverAcceptsB a && neverAcceptsB b) := by
  induction a with
  | nil => simp [neverAcceptsB]
  | cons e a' ih =>
    cases e with
    | malformed => simpa [neverAcceptsB] using ih
    | payload m => simp [neverAcceptsB, ih, Bool.and_assoc]

theorem neverAcceptsB_mem {es : List Ev} (h : neverAcceptsB es = true)
    {m : Payload} (hm : Ev.payload m ∈ es) :
    isPassVal (pget "validation" m) = false := by
  induction es with
  | nil => cases hm
  | cons e es' ih =>
    cases e with
    | malformed =>
      cases hm with
      | tail _ htail => exact ih h htail
    | payload m' =>
      rw [neverAcceptsB, Bool.and_eq_true] at h
      cases hm with
      | head =>
        have := h.1
        simpa using this
      | tail _ htail => exact ih h.2 htail

theorem noReportB_append (a b : List Ev) :
    noReportB (a ++ b) = (noReportB a && noReportB b) := by
  induction a with
  | nil => simp [noReportB]
  | cons e a' ih =>
    cases e with
    | malformed => simpa [noReportB] using ih
    | payload m => simp [noReportB, ih, Bool.and_assoc]

theorem noReportB_mem {es : List Ev} (h : noReportB es = true)
    {m : Payload} (hm : Ev.payload m ∈ es) :
    pget "boq" m = none := by
  induction es with
  | nil => cases hm
  | cons e es' ih =>
    cases e with
    | malformed =>
      cases hm with
      | tail _ htail => exact ih h htail
    | payload m' =>
      rw [noReportB, Bool.and_eq_true] at h
      cases hm with
      | head =>
        have h1 := h.1
        simp only [Bool.not_eq_true'] at h1
        exact Option.not_isSome_iff_eq_none.mp (by simp [h1])
      | tail _ htail => exact ih h.2 htail

theorem stepEvent_noverdict_fields (u s : String) (st : LoopState) (m : Payload)
    (hV : pget "validation" m = none) :
    (stepEvent u s st (.payload m)).broke = st.broke ∧
    (stepEvent u s st (.payload m)).validdation_count = st.validdation_count := by
  cases hB : pget "boq" m with
  | some v =>
    simp only [stepEvent, hB, hV, storeUnits]
    have h := storeUnitsAux_fields u s m REQUIRED_COMPONENTS { st with boq_data := v }
    exact ⟨h.1, h.2.2⟩
  | none =>
    simp only [stepEvent, hB, hV, storeUnits]
    have h := storeUnitsAux_fields u s m REQUIRED_COMPONENTS st
    exact ⟨h.1, h.2.2⟩

theorem stepEvent_verdict_continue (u s : String) (st : LoopState) (m : Payload)
    (hV : (pget "validation" m).isSome = true)
    (hpass : isPassVal (pget "validation" m) = false)
    (hcnt : ¬ st.validdation_count + 1 = 3) :
    stepEvent u s st (.payload m) =
      { st with
        boq_data := (pget "boq" m).getD st.boq_data,
        validation_result := m,
        validdation_count := st.validdation_count + 1 } := by
  obtain ⟨w, hw⟩ := Option.isSome_iff_exists.mp hV
  rw [hw] at hpass
  cases hB : pget "boq" m with
  | some v => simp [stepEvent, hB, hw, hpass, hcnt]
  | none => simp [stepEvent, hB, hw, hpass, hcnt]

theorem stepEvent_verdict_break (u s : String) (st : LoopState) (m : Payload)
    (hV : (pget "validation" m).isSome = true)
    (hpass : isPassVal (pget "validation" m) = false)
    (hcnt : st.validdation_count + 1 = 3) :
    stepEvent u s st (.payload m) =
      { parsed_components := st.parsed_components ++ ["boq"],
        boq_data := (pget "boq" m).getD st.boq_data,
        validation_result := m,
        validdation_count := st.validdation_count + 1,
        db := st.db ++
          [⟨"boq", u, s, (pget "boq" m).getD st.boq_data, "completed"⟩],
        broke := true } := by
  obtain ⟨w, hw⟩ := Option.isSome_iff_exists.mp hV
  rw [hw] at hpass
  cases hB : pget "boq" m with
  | some v => simp [stepEvent, hB, hw, hpass, hcnt, store_component_in_db]
  | none => simp [stepEvent, hB, hw, hpass, hcnt, store_component_in_db]

theorem runEvents_noBreak (u s : String) :
    ∀ (es : List Ev) (st : LoopState),
      neverAcceptsB es = true → st.broke = false →
      st.validdation_count + verdictCount es ≤ 2 →
      (runEvents u s st es).broke = false ∧
      (runEvents u s st es).validdation_count
        = st.validdation_count + verdictCount es := by
  intro es
  induction es with
  | nil => intro st _ hb _; exact ⟨hb, by simp [runEvents, verdictCount]⟩
  | cons e es' ih =>
    intro st h hb hc
    have hnb : ¬ st.broke = true := by rw [hb]; simp
    rw [runEvents, if_neg hnb]
    cases e with
    | malformed =>
      have := ih st h hb (by simpa [verdictCount] using hc)
      simpa [stepEvent, verdictCount] using this
    | payload m =>
      rw [neverAcceptsB, Bool.and_eq_true] at h
      have hpass : isPassVal (pget "validation" m) = false := by
        simpa using h.1
      cases hV : (pget "validation" m).isSome with
      | false =>
        have hVn : pget "validation" m = none :=
          Option.not_isSome_iff_eq_none.mp (by simp [hV])
        obtain ⟨g1, g2⟩ := stepEvent_noverdict_fields u s st m hVn
        have hc' : (stepEvent u s st (.payload m)).validdation_count
            + verdictCount es' ≤ 2 := by
          rw [g2]
          simpa [verdictCount, hV] using hc
        obtain ⟨r1, r2⟩ := ih _ h.2 (g1.trans hb) hc'
        refine ⟨r1, ?_⟩
        rw [r2, g2]
        simp [verdictCount, hV]
      | true =>
        have hvc : verdictCount (Ev.payload m :: es') = 1 + verdictCount es' := by
          simp [verdictCount, hV]
        have hcnt : ¬ st.validdation_count + 1 = 3 := by
          rw [hvc] at hc
          omega
        rw [stepEvent_verdict_continue u s st m hV hpass hcnt]
        have hc' : st.validdation_count + 1 + verdictCount es' ≤ 2 := by
          rw [hvc] at hc
          omega
        obtain ⟨r1, r2⟩ := ih
          { st with
            boq_data := (pget "boq" m).getD st.boq_data,
            validation_result := m,
            validdation_count := st.validdation_count + 1 } h.2 hb hc'
        refine ⟨r1, ?_⟩
        rw [r2]
        show st.validdation_count + 1 + verdictCount es'
          = st.validdation_count + verdictCount (Ev.payload m :: es')
        rw [hvc]
        omega

theorem storeUnitsAux_boq_data (u s : String) (m : Payload) (L : List String)
    (st : LoopState) : (storeUnitsAux u s m L st).boq_data = st.boq_data :=
  (storeUnitsAux_fields u s m L st).2.1

theorem stepEvent_boq_data (u s : String) (st : LoopState) (m : Payload)
    (hB : pget "boq" m = none) :
    (stepEvent u s st (.payload m)).boq_data = st.boq_data := by
  cases hV : pget "validation" m with
  | some w =>
    simp only [stepEvent, hB, hV]
    split_ifs <;> rfl
  | none =>
    simp only [stepEvent, hB, hV, storeUnits]
    exact storeUnitsAux_boq_data u s m REQUIRED_COMPONENTS st

theorem runEvents_boq_data_of_noReport (u s : String) :
    ∀ (es : List Ev) (st : LoopState), noReportB es = true →
      (runEvents u s st es).boq_data = st.boq_data := by
  intro es
  induction es with
  | nil => intro st _; rfl
  | cons e es' ih =>
    intro st h
    by_cases hb : st.broke = true
    · rw [runEvents_broke u s st hb]
    · rw [runEvents, if_neg hb]
      cases e with
      | malformed => exact ih st h
      | payload m =>
        rw [noReportB, Bool.and_eq_true] at h
        have hB : pget "boq" m = none := by
          have h1 := h.1
          simp only [Bool.not_eq_true'] at h1
          exact Option.not_isSome_iff_eq_none.mp (by simp [h1])
        rw [ih _ h.2, stepEvent_boq_data u s st m hB]

/-!  The run writes only `completed` records; `failed` records come only from
the rollback path. -/

theorem failedRecordCount_append (db1 db2 : List DBRec) :
    failedRecordCount (db1 ++ db2) = failedRecordCount db1 + failedRecordCount db2 := by
  simp [failedRecordCount, List.filter_append]

theorem storeUnitsAux_failedCount (u s : String) (m : Payload) :
    ∀ (L : List String) (st : LoopState),
      failedRecordCount (storeUnitsAux u s m L st).db = failedRecordCount st.db := by
  intro L
  induction L with
  | nil => intro st; rfl
  | cons k ks ih =>
    intro st
    simp only [storeUnitsAux]
    by_cases h : (pget k m).isSome = true ∧ k ∉ st.parsed_components ∧ k ≠ "boq"
    · simp only [if_pos h]
      rw [ih]
      simp [store_component_in_db, failedRecordCount_append, failedRecordCount]
    · simp only [if_neg h]
      exact ih st

theorem stepEvent_failedCount (u s : String) (st : LoopState) (e : Ev) :
    failedRecordCount (stepEvent u s st e).db = failedRecordCount st.db := by
  cases e with
  | malformed => rfl
  | payload m =>
    cases hB : pget "boq" m with
    | some v =>
      cases hV : pget "validation" m with
      | some w =>
        simp only [stepEvent, hB, hV]
        split_ifs <;>
          simp [store_component_in_db, failedRecordCount_append, failedRecordCount]
      | none =>
        simp only [stepEvent, hB, hV, storeUnits]
        exact storeUnitsAux_failedCount u s m REQUIRED_COMPONENTS _
    | none =>
      cases hV : pget "validation" m with
      | some w =>
        simp only [stepEvent, hB, hV]
        split_ifs <;>
          simp [store_component_in_db, failedRecordCount_append, failedRecordCount]
      | none =>
        simp only [stepEvent, hB, hV, storeUnits]
        exact storeUnitsAux_failedCount u s m REQUIRED_COMPONENTS st

theorem runEvents_failedCount (u s : String) :
    ∀ (es : List Ev) (st : LoopState),
      failedRecordCount (runEvents u s st es).db = failedRecordCount st.db := by
  intro es
  induction es with
  | nil => intro st; rfl
  | cons e es' ih =>
    intro st
    by_cases hb : st.broke = true
    · rw [runEvents_broke u s st hb]
    · rw [runEvents, if_neg hb, ih, stepEvent_failedCount]

/-- On a stream that splits as `pre ++ verdict :: post` where `pre` carries
exactly two verdicts, no verdict passes, and the split event is a verdict:
the run executes `pre`, then the split verdict makes the count reach 3 and
takes the force-accept `break`, and `post` is never consumed. -/
theorem runEvents_force_break (u s : String) (db0 : List DBRec)
    (events pre post : List Ev) (m : Payload)
    (hsplit : events = pre ++ Ev.payload m :: post)
    (hnacc : neverAcceptsB events = true)
    (hpre : verdictCount pre = 2)
    (hm : (pget "validation" m).isSome = true) :
    runEvents u s (initState db0) events =
      { parsed_components :=
          (runEvents u s (initState db0) pre).parsed_components ++ ["boq"],
        boq_data :=
          (pget "boq" m).getD (runEvents u s (initState db0) pre).boq_data,
        validation_result := m,
        validdation_count := 3,
        db := (runEvents u s (initState db0) pre).db ++
          [⟨"boq", u, s,
            (pget "boq" m).getD (runEvents u s (initState db0) pre).boq_data,
            "completed"⟩],
        broke := true } := by
  subst hsplit
  rw [neverAcceptsB_append, Bool.and_eq_true] at hnacc
  obtain ⟨hnpre, hnrest⟩ := hnacc
  rw [neverAcceptsB, Bool.and_eq_true] at hnrest
  have hpass : isPassVal (pget "validation" m) = false := by
    simpa using hnrest.1
  obtain ⟨hbf, hcnt⟩ := runEvents_noBreak u s pre (initState db0) hnpre rfl
    (by simp [initState, hpre])
  have hcnt3 : (runEvents u s (initState db0) pre).validdation_count + 1 = 3 := by
    rw [hcnt]
    simp [initState, hpre]
  rw [runEvents_append]
  have hnb : ¬ (runEvents u s (initState db0) pre).broke = true := by
    rw [hbf]; simp
  rw [runEvents, if_neg hnb]
  rw [stepEvent_verdict_break u s _ m hm hpass hcnt3]
  rw [runEvents_broke u s _ rfl]
  rw [hcnt3]

theorem process_body_db_of_broke (u s : String) (db0 : List DBRec) (fs0 : Bool)
    (events : List Ev) (raises : Bool)
    (h : (runEvents u s (initState db0) events).broke = true) :
    (process_body u s db0 fs0 ⟨events, raises⟩).db
      = (runEvents u s (initState db0) events).db := by
  simp only [process_body]
  rw [if_neg]
  intro hc
  rw [h] at hc
  exact absurd hc.2 (by simp)

/-- C4: on any stream whose verdicts never pass, the run signals
FORCE_ACCEPT exactly when the verdict count reaches 3 — the `break` fires at
the third verdict event, the last captured report payload is persisted with
status `completed` despite no passing verdict, the rest of the stream is
never consumed (the final state equals the state after the third verdict),
and no prefix with fewer than three verdicts ever breaks. -/
theorem C4_force_accept_exactly_at_three (u s : String) (db0 : List DBRec)
    (events pre post : List Ev) (m : Payload)
    (hsplit : events = pre ++ Ev.payload m :: post)
    (hnacc : neverAcceptsB events = true)
    (hpre : verdictCount pre = 2)
    (hm : (pget "validation" m).isSome = true) :
    (runEvents u s (initState db0) events).broke = true ∧
    (runEvents u s (initState db0) events).validdation_count = 3 ∧
    (runEvents u s (initState db0) events).db
      = (runEvents u s (initState db0) pre).db ++
        [⟨"boq", u, s,
          (pget "boq" m).getD (runEvents u s (initState db0) pre).boq_data,
          "completed"⟩] ∧
    runEvents u s (initState db0) events
      = runEvents u s (initState db0) (pre ++ [Ev.payload m]) ∧
    (∀ pre' post', events = pre' ++ post' → verdictCount pre' ≤ 2 →
      (runEvents u s (initState db0) pre').broke = false) := by
  have hmain := runEvents_force_break u s db0 events pre post m hsplit hnacc hpre hm
  have hnacc2 : neverAcceptsB (pre ++ [Ev.payload m]) = true := by
    have hcopy := hnacc
    rw [hsplit, neverAcceptsB_append, Bool.and_eq_true] at hcopy
    have hrest := hcopy.2
    rw [neverAcceptsB, Bool.and_eq_true] at hrest
    rw [neverAcceptsB_append, Bool.and_eq_true]
    exact ⟨hcopy.1, by rw [neverAcceptsB, Bool.and_eq_true]; exact ⟨hrest.1, rfl⟩⟩
  have hmain2 := runEvents_force_break u s db0 (pre ++ [Ev.payload m]) pre [] m
    rfl hnacc2 hpre hm
  refine ⟨by rw [hmain], by rw [hmain], by rw [hmain], by rw [hmain, hmain2], ?_⟩
  intro pre' post' heq hvc
  have hnacc' : neverAcceptsB pre' = true := by
    have hcopy := hnacc
    rw [heq, neverAcceptsB_append, Bool.and_eq_true] at hcopy
    exact hcopy.1
  exact (runEvents_noBreak u s pre' (initState db0) hnacc' rfl
    (by simpa [initState] using hvc)).1

/-- Witness for C4: a report followed by three failing verdicts breaks at
the third verdict with the report persisted completed. -/
theorem C4_force_accept_exactly_at_three_witness :
    (runEvents "u1" "s1" (initState [])
      [Ev.payload [("boq", JVal.arr [JVal.str "item"])],
       failingVerdict, failingVerdict, failingVerdict]).broke = true ∧
    (runEvents "u1" "s1" (initState [])
      [Ev.payload [("boq", JVal.arr [JVal.str "item"])],
       failingVerdict, failingVerdict, failingVerdict]).validdation_count = 3 :=
  have h := C4_force_accept_exactly_at_three "u1" "s1" []
    [Ev.payload [("boq", JVal.arr [JVal.str "item"])],
     failingVerdict, failingVerdict, failingVerdict]
    [Ev.payload [("boq", JVal.arr [JVal.str "item"])], failingVerdict, failingVerdict]
    [] [("validation", JVal.str "fail")] rfl (by decide) (by decide) (by decide)
  ⟨h.1, h.2.1⟩

theorem stepEvent_verdict_continue_nullboq (u s : String) (st : LoopState)
    (m : Payload) (hV : (pget "validation" m).isSome = true)
    (hB : pget "boq" m = none) (hnull : st.boq_data = JVal.null)
    (hcnt : ¬ st.validdation_count + 1 = 3) :
    stepEvent u s st (.payload m) =
      { st with
        validation_result := m,
        validdation_count := st.validdation_count + 1 } := by
  obtain ⟨w, hw⟩ := Option.isSome_iff_exists.mp hV
  simp [stepEvent, hB, hw, hnull, hcnt, JVal.truthy]

theorem stepEvent_verdict_break_nullboq (u s : String) (st : LoopState)
    (m : Payload) (hV : (pget "validation" m).isSome = true)
    (hB : pget "boq" m = none) (hnull : st.boq_data = JVal.null)
    (hcnt : st.validdation_count + 1 = 3) :
    stepEvent u s st (.payload m) =
      { parsed_components := st.parsed_components ++ ["boq"],
        boq_data := JVal.null,
        validation_result := m,
        validdation_count := st.validdation_count + 1,
        db := st.db ++ [⟨"boq", u, s, JVal.null, "completed"⟩],
        broke := true } := by
  obtain ⟨w, hw⟩ := Option.isSome_iff_exists.mp hV
  simp [stepEvent, hB, hw, hnull, hcnt, JVal.truthy, store_component_in_db]

/-- While no report has been observed, `boq_data` stays null and therefore
falsy, so the pass branch of line 124 can never fire — whatever the verdict
values are — and the loop cannot break before the verdict count reaches 3. -/
theorem runEvents_noBreak_noReport (u s : String) :
    ∀ (es : List Ev) (st : LoopState),
      noReportB es = true → st.boq_data = JVal.null → st.broke = false →
      st.validdation_count + verdictCount es ≤ 2 →
      (runEvents u s st es).broke = false ∧
      (runEvents u s st es).validdation_count
        = st.validdation_count + verdictCount es ∧
      (runEvents u s st es).boq_data = JVal.null := by
  intro es
  induction es with
  | nil =>
    intro st _ hnull hb _
    exact ⟨hb, by simp [runEvents, verdictCount], by simpa [runEvents] using hnull⟩
  | cons e es' ih =>
    intro st h hnull hb hc
    have hnb : ¬ st.broke = true := by rw [hb]; simp
    rw [runEvents, if_neg hnb]
    cases e with
    | malformed =>
      have := ih st h hnull hb (by simpa [verdictCount] using hc)
      simpa [stepEvent, verdictCount] using this
    | payload m =>
      rw [noReportB, Bool.and_eq_true] at h
      have hB : pget "boq" m = none := by
        have h1 := h.1
        simp only [Bool.not_eq_true'] at h1
        exact Option.not_isSome_iff_eq_none.mp (by simp [h1])
      cases hV : (pget "validation" m).isSome with
      | false =>
        have hVn : pget "validation" m = none :=
          Option.not_isSome_iff_eq_none.mp (by simp [hV])
        obtain ⟨g1, g2⟩ := stepEvent_noverdict_fields u s st m hVn
        have gboq : (stepEvent u s st (.payload m)).boq_data = st.boq_data :=
          stepEvent_boq_data u s st m hB
        have hc' : (stepEvent u s st (.payload m)).validdation_count
            + verdictCount es' ≤ 2 := by
          rw [g2]
          simpa [verdictCount, hV] using hc
        obtain ⟨r1, r2, r3⟩ := ih _ h.2 (by rw [gboq]; exact hnull)
          (g1.trans hb) hc'
        refine ⟨r1, ?_, r3⟩
        rw [r2, g2]
        simp [verdictCount, hV]
      | true =>
        have hvc : verdictCount (Ev.payload m :: es') = 1 + verdictCount es' := by
          simp [verdictCount, hV]
        have hcnt : ¬ st.validdation_count + 1 = 3 := by
          rw [hvc] at hc
          omega
        rw [stepEvent_verdict_continue_nullboq u s st m hV hB hnull hcnt]
        have hc' : st.validdation_count + 1 + verdictCount es' ≤ 2 := by
          rw [hvc] at hc
          omega
        obtain ⟨r1, r2, r3⟩ := ih
          { st with
            validation_result := m,
            validdation_count := st.validdation_count + 1 } h.2 hnull hb hc'
        refine ⟨r1, ?_, r3⟩
        rw [r2]
        show st.validdation_count + 1 + verdictCount es'
          = st.validdation_count + verdictCount (Ev.payload m :: es')
        rw [hvc]
        omega

/-- On a stream that splits as `pre ++ verdict :: post` where `pre` carries
exactly two verdicts and no event up to and including the split verdict
carries a report: the run executes `pre` with `boq_data` still null, the
third verdict takes the force-accept `break` storing a null report (its
verdict value, passing or not, is irrelevant because the null report is
falsy), and `post` is never consumed. -/
theorem runEvents_force_break_noReport (u s : String) (db0 : List DBRec)
    (events pre post : List Ev) (m : Payload)
    (hsplit : events = pre ++ Ev.payload m :: post)
    (hnor : noReportB (pre ++ [Ev.payload m]) = true)
    (hpre : verdictCount pre = 2)
    (hm : (pget "validation" m).isSome = true) :
    runEvents u s (initState db0) events =
      { parsed_components :=
          (runEvents u s (initState db0) pre).parsed_components ++ ["boq"],
        boq_data := JVal.null,
        validation_result := m,
        validdation_count := 3,
        db := (runEvents u s (initState db0) pre).db ++
          [⟨"boq", u, s, JVal.null, "completed"⟩],
        broke := true } := by
  subst hsplit
  rw [noReportB_append, Bool.and_eq_true] at hnor
  have hBm : pget "boq" m = none := by
    have hrest := hnor.2
    rw [noReportB, Bool.and_eq_true] at hrest
    have h1 := hrest.1
    simp only [Bool.not_eq_true'] at h1
    exact Option.not_isSome_iff_eq_none.mp (by simp [h1])
  obtain ⟨hbf, hcnt, hbq⟩ := runEvents_noBreak_noReport u s pre (initState db0)
    hnor.1 rfl rfl (by simp [initState, hpre])
  have hcnt3 : (runEvents u s (initState db0) pre).validdation_count + 1 = 3 := by
    rw [hcnt]
    simp [initState, hpre]
  rw [runEvents_append]
  have hnb : ¬ (runEvents u s (initState db0) pre).broke = true := by
    rw [hbf]; simp
  rw [runEvents, if_neg hnb]
  rw [stepEvent_verdict_break_nullboq u s _ m hm hBm hbq hcnt3]
  rw [runEvents_broke u s _ rfl]
  rw [hcnt3]

/-- C3, amended: for any event stream in which a verdict reaches the
iteration ceiling while no report was ever observed — whatever the verdict
values, since the absent report is falsy and blocks the pass branch — the
run is not treated as a failure: the code persists the report unit as
`completed` with a null payload at the third verdict, stops consuming the
stream, skips the rollback branch even when the stream would later raise,
and writes no failed record. -/
theorem C3_ceiling_without_report (u s : String) (db0 : List DBRec)
    (fs0 raises : Bool) (events pre post : List Ev) (m : Payload)
    (hsplit : events = pre ++ Ev.payload m :: post)
    (hnor : noReportB (pre ++ [Ev.payload m]) = true)
    (hpre : verdictCount pre = 2)
    (hm : (pget "validation" m).isSome = true) :
    (process_body u s db0 fs0 ⟨events, raises⟩).db
      = (runEvents u s (initState db0) pre).db
        ++ [⟨"boq", u, s, JVal.null, "completed"⟩] ∧
    failedRecordCount (process_body u s db0 fs0 ⟨events, raises⟩).db
      = failedRecordCount db0 ∧
    (runEvents u s (initState db0) events).broke = true := by
  have hmain := runEvents_force_break_noReport u s db0 events pre post m
    hsplit hnor hpre hm
  have hbroke : (runEvents u s (initState db0) events).broke = true := by rw [hmain]
  refine ⟨?_, ?_, hbroke⟩
  · rw [process_body_db_of_broke u s db0 fs0 events raises hbroke, hmain]
  · rw [process_body_db_of_broke u s db0 fs0 events raises hbroke,
      runEvents_failedCount]
    rfl

/-- Witness for C3's amended statement: a pass-valued verdict followed by
two failing verdicts, with no report ever produced, over a stream that
raises after them — even the passing verdict cannot accept a null report. -/
theorem C3_ceiling_without_report_witness :
    (process_body "u1" "s1" [] true
        ⟨[Ev.payload [("validation", JVal.str "pass")],
          failingVerdict, failingVerdict], true⟩).db
      = (runEvents "u1" "s1" (initState [])
          [Ev.payload [("validation", JVal.str "pass")], failingVerdict]).db
        ++ [⟨"boq", "u1", "s1", JVal.null, "completed"⟩] ∧
    failedRecordCount (process_body "u1" "s1" [] true
        ⟨[Ev.payload [("validation", JVal.str "pass")],
          failingVerdict, failingVerdict], true⟩).db
      = failedRecordCount [] :=
  have h := C3_ceiling_without_report "u1" "s1" [] true true
    [Ev.payload [("validation", JVal.str "pass")], failingVerdict, failingVerdict]
    [Ev.payload [("validation", JVal.str "pass")], failingVerdict] []
    [("validation", JVal.str "fail")]
    rfl (by decide) (by decide) (by decide)
  ⟨h.1, h.2.1⟩

theorem count_extend_boq (u s : String) (db : List DBRec) (parsed : List String)
    (d : JVal) (k : String) (hk : k ≠ "boq") :
    dbCount k u s (db ++ [⟨"boq", u, s, d, "completed"⟩]) = dbCount k u s db ∧
    (parsed ++ ["boq"]).count k = parsed.count k := by
  constructor
  · rw [dbCount_append]
    have hnc : ¬("boq" = k ∧ u = u ∧ s = s) := fun hc => hk hc.1.symm
    simp [dbCount, hnc, Ne.symm hk]
  · simp [List.count_append, List.count_cons, hk]

/-- C7, amended: an event whose payload carries the verdict marker is
handled as a verdict in that no extraction unit is recorded from it (for
every name other than the report unit, neither the store nor the recorded
set changes), but its `boq` key, when present, is still captured as the
last-seen report before the verdict is processed. -/
theorem C7_verdict_keeps_report_capture (u s : String) (st : LoopState)
    (m : Payload) (hm : (pget "validation" m).isSome = true) :
    (stepEvent u s st (.payload m)).boq_data = (pget "boq" m).getD st.boq_data ∧
    (∀ k, k ≠ "boq" →
      dbCount k u s (stepEvent u s st (.payload m)).db = dbCount k u s st.db ∧
      (stepEvent u s st (.payload m)).parsed_components.count k
        = st.parsed_components.count k) := by
  obtain ⟨w, hw⟩ := Option.isSome_iff_exists.mp hm
  cases hB : pget "boq" m with
  | some v =>
    simp only [stepEvent, hB, hw]
    split_ifs with h1 h2
    · exact ⟨by simp [hB], fun k hk =>
        count_extend_boq u s st.db st.parsed_components v k hk⟩
    · exact ⟨by simp [hB], fun k hk =>
        count_extend_boq u s st.db st.parsed_components v k hk⟩
    · exact ⟨by simp [hB], fun k hk => ⟨rfl, rfl⟩⟩
  | none =>
    simp only [stepEvent, hB, hw]
    split_ifs with h1 h2
    · exact ⟨by simp [hB], fun k hk =>
        count_extend_boq u s st.db st.parsed_components st.boq_data k hk⟩
    · exact ⟨by simp [hB], fun k hk =>
        count_extend_boq u s st.db st.parsed_components st.boq_data k hk⟩
    · exact ⟨by simp [hB], fun k hk => ⟨rfl, rfl⟩⟩

/-- Witness for C7's amended statement: a failing verdict carrying a `boq`
key captures the report and records no unit. -/
theorem C7_verdict_keeps_report_capture_witness :
    (stepEvent "u1" "s1" (initState [])
        (.payload [("validation", JVal.str "fail"), ("boq", JVal.str "X")])).boq_data
      = (pget "boq" [("validation", JVal.str "fail"), ("boq", JVal.str "X")]).getD
          (initState ([] : List DBRec)).boq_data ∧
    dbCount "pile_details" "u1" "s1"
        (stepEvent "u1" "s1" (initState [])
          (.payload [("validation", JVal.str "fail"), ("boq", JVal.str "X")])).db
      = dbCount "pile_details" "u1" "s1" (initState ([] : List DBRec)).db :=
  have h := C7_verdict_keeps_report_capture "u1" "s1" (initState [])
    [("validation", JVal.str "fail"), ("boq", JVal.str "X")] (by decide)
  ⟨h.1, (h.2 "pile_details" (by decide)).1⟩

/-!  Properties of the cleaning of fenced event texts. -/

theorem isPrefixOf_append_self : ∀ (l t : List Char), l.isPrefixOf (l ++ t) = true := by
  intro l t
  induction l with
  | nil => simp [List.isPrefixOf]
  | cons a as ih => simp [List.isPrefixOf, ih]

theorem isPrefixOf_extend {l s : List Char} (q : List Char)
    (h : l.isPrefixOf s = true) : l.isPrefixOf (s ++ q) = true := by
  induction l generalizing s with
  | nil => simp [List.isPrefixOf]
  | cons a as ih =>
    cases s with
    | nil => simp [List.isPrefixOf] at h
    | cons b bs =>
      rw [List.isPrefixOf, Bool.and_eq_true] at h
      rw [List.cons_append, List.isPrefixOf, Bool.and_eq_true]
      exact ⟨h.1, ih h.2⟩

theorem hasMarker_append_left {p : List Char} (q : List Char)
    (h : hasMarker p = true) : hasMarker (p ++ q) = true := by
  induction p with
  | nil => cases h
  | cons c cs ih =>
    rw [hasMarker, Bool.or_eq_true] at h
    rw [List.cons_append, hasMarker, Bool.or_eq_true]
    cases h with
    | inl h1 => exact Or.inl (by simpa using isPrefixOf_extend q h1)
    | inr h2 => exact Or.inr (ih h2)

theorem hasMarker_of_append_false {p q : List Char}
    (h : hasMarker (p ++ q) = false) : hasMarker p = false := by
  cases hp : hasMarker p with
  | false => rfl
  | true => rw [hasMarker_append_left q hp] at h; cases h

theorem not_isPrefixOf_of_hasMarker_false {p : List Char}
    (h : hasMarker p = false) : fenceMarker.isPrefixOf p = false := by
  cases p with
  | nil => rfl
  | cons c cs =>
    rw [hasMarker, Bool.or_eq_false_iff] at h
    exact h.1

theorem replaceMarkerF_no_occ :
    ∀ (f : Nat) (t : List Char), t.length ≤ f → hasMarker t = false →
      replaceMarkerF f t = t := by
  intro f
  induction f with
  | zero =>
    intro t hl _
    have : t = [] := List.eq_nil_of_length_eq_zero (Nat.le_zero.mp hl)
    rw [this]
    rfl
  | succ f ih =>
    intro t hl h
    cases t with
    | nil => rfl
    | cons c cs =>
      rw [hasMarker, Bool.or_eq_false_iff] at h
      rw [replaceMarkerF, if_neg (by simp [h.1])]
      rw [ih cs (by simpa using hl) h.2]

theorem replaceMarker_marker_append (t : List Char) (h : hasMarker t = false) :
    replaceMarker (fenceMarker ++ t) = t := by
  have hlen : (fenceMarker ++ t).length = t.length + 7 := by
    simp [fenceMarker, List.length_append]
  have hpre : fenceMarker.isPrefixOf (fenceMarker ++ t) = true :=
    isPrefixOf_append_self fenceMarker t
  rw [replaceMarker, hlen]
  have hshape : fenceMarker ++ t = bq :: ([bq, bq, 'j', 's', 'o', 'n'] ++ t) := rfl
  rw [hshape]
  rw [replaceMarkerF, if_pos (by rw [← hshape]; exact hpre)]
  have hdrop : ([bq, bq, 'j', 's', 'o', 'n'] ++ t).drop 6 = t := rfl
  rw [hdrop]
  exact replaceMarkerF_no_occ (t.length + 6) t (by omega) h

theorem pyWs_bq : pyWs bq = false := by decide

theorem pyLStrip_append_fence (t : List Char) :
    pyLStrip (t ++ fence3) = pyLStrip t ++ fence3 := by
  induction t with
  | nil =>
    show List.dropWhile pyWs (bq :: [bq, bq]) = [] ++ fence3
    rw [List.dropWhile_cons_of_neg (by simp [pyWs_bq])]
    rfl
  | cons c t' ih =>
    cases hc : pyWs c with
    | true =>
      rw [List.cons_append, pyLStrip, List.dropWhile_cons_of_pos hc]
      rw [pyLStrip, List.dropWhile_cons_of_pos hc]
      exact ih
    | false =>
      rw [List.cons_append, pyLStrip, List.dropWhile_cons_of_neg (by simp [hc])]
      rw [pyLStrip, List.dropWhile_cons_of_neg (by simp [hc])]
      rfl

theorem pyRStrip_append_fence (x : List Char) :
    pyRStrip (x ++ fence3) = x ++ fence3 := by
  rw [pyRStrip, List.reverse_append]
  show ((bq :: (bq :: bq :: x.reverse)).dropWhile pyWs).reverse = x ++ fence3
  rw [List.dropWhile_cons_of_neg (by simp [pyWs_bq])]
  rw [List.reverse_cons, List.reverse_cons, List.reverse_cons, List.reverse_reverse]
  simp [fence3]

theorem pyStrip_append_fence (t : List Char) :
    pyStrip (t ++ fence3) = pyLStrip t ++ fence3 := by
  rw [pyStrip, pyLStrip_append_fence, pyRStrip_append_fence]

theorem fence3_isSuffixOf_append (x : List Char) :
    fence3.isSuffixOf (x ++ fence3) = true := by
  rw [List.isSuffixOf, List.reverse_append]
  show (fence3.reverse).isPrefixOf (fence3.reverse ++ x.reverse) = true
  exact isPrefixOf_append_self _ _

theorem take_append_fence (x : List Char) :
    (x ++ fence3).take ((x ++ fence3).length - 3) = x := by
  have h : (x ++ fence3).length - 3 = x.length := by
    simp [fence3, List.length_append]
  rw [h]
  exact List.take_left x fence3

theorem dropWhile_head_false :
    ∀ (l : List Char) (c : Char), (List.dropWhile pyWs l).head? = some c →
      pyWs c = false := by
  intro l
  induction l with
  | nil => intro c h; cases h
  | cons a t ih =>
    intro c h
    cases ha : pyWs a with
    | true =>
      rw [List.dropWhile_cons_of_pos ha] at h
      exact ih c h
    | false =>
      rw [List.dropWhile_cons_of_neg (by simp [ha])] at h
      cases h
      exact ha

theorem dropWhile_is_suffix (l : List Char) :
    ∃ t, t ++ List.dropWhile pyWs l = l := by
  induction l with
  | nil => exact ⟨[], rfl⟩
  | cons a l' ih =>
    cases ha : pyWs a with
    | true =>
      obtain ⟨t, ht⟩ := ih
      exact ⟨a :: t, by rw [List.dropWhile_cons_of_pos ha, List.cons_append, ht]⟩
    | false =>
      exact ⟨[], by rw [List.dropWhile_cons_of_neg (by simp [ha])]; rfl⟩

theorem pyRStrip_prefix (y : List Char) : ∃ t, pyRStrip y ++ t = y := by
  obtain ⟨t, ht⟩ := dropWhile_is_suffix y.reverse
  refine ⟨t.reverse, ?_⟩
  have : (t ++ List.dropWhile pyWs y.reverse).reverse = y := by
    rw [ht, List.reverse_reverse]
  rw [List.reverse_append] at this
  rw [pyRStrip, this]

theorem pyLStrip_of_pyRStrip_of_lstripped (p : List Char) :
    pyLStrip (pyRStrip (pyLStrip p)) = pyRStrip (pyLStrip p) := by
  obtain ⟨t, ht⟩ := pyRStrip_prefix (pyLStrip p)
  cases hy : pyRStrip (pyLStrip p) with
  | nil => rfl
  | cons c r =>
    have hc : pyWs c = false := by
      apply dropWhile_head_false p c
      rw [hy] at ht
      have : pyLStrip p = c :: (r ++ t) := by rw [← ht]; rfl
      rw [pyLStrip] at this
      rw [this]
      rfl
    rw [pyLStrip, List.dropWhile_cons_of_neg (by simp [hc])]

theorem pyStrip_pyStrip (p : List Char) : pyStrip (pyStrip p) = pyStrip p := by
  rw [pyStrip, pyStrip, pyLStrip_of_pyRStrip_of_lstripped]
  have hidem : ∀ y : List Char, pyRStrip (pyRStrip y) = pyRStrip y := by
    intro y
    rw [pyRStrip, pyRStrip, List.reverse_reverse]
    have : List.dropWhile pyWs (List.dropWhile pyWs y.reverse)
        = List.dropWhile pyWs y.reverse := by
      cases hz : List.dropWhile pyWs y.reverse with
      | nil => rfl
      | cons c r =>
        have hc : pyWs c = false := dropWhile_head_false y.reverse c (by rw [hz]; rfl)
        rw [List.dropWhile_cons_of_neg (by simp [hc])]
    rw [this]
  exact hidem (pyLStrip p)

theorem pyLStrip_idem (s : List Char) : pyLStrip (pyLStrip s) = pyLStrip s := by
  cases hz : pyLStrip s with
  | nil => rfl
  | cons c r =>
    have hc : pyWs c = false := dropWhile_head_false s c (by rw [pyLStrip] at hz; rw [hz]; rfl)
    rw [pyLStrip, List.dropWhile_cons_of_neg (by simp [hc])]

theorem pyStrip_pyLStrip (p : List Char) : pyStrip (pyLStrip p) = pyStrip p := by
  rw [pyStrip, pyStrip, pyLStrip_idem]

/-- The payload text `{"a": "```json"}` — a valid JSON object whose string
value contains the opening fence marker. -/
def fencePayloadCx : List Char :=
  ['\x7b', '"', 'a', '"', ':', ' ', '"', bq, bq, bq, 'j', 's', 'o', 'n', '"', '\x7d']

/-- C8, counterexample: because line 107 removes every occurrence of the
marker, a payload containing the marker inside a string value does not
decode identically when wrapped — the wrapped form cleans to `{"a": ""}`
while the unwrapped form keeps `{"a": "```json"}`, two texts that differ
beyond surrounding whitespace and parse to different JSON values. -/
theorem C8_counterexample :
    pyStrip (cleanText (wrapFence fencePayloadCx))
      ≠ pyStrip (cleanText fencePayloadCx) := by
  decide

/-- C8, amended: for every payload in which the fence marker does not occur
(even at the junction with the closing fence) and which does not itself end
in a closing fence, the wrapped payload cleans to exactly the
whitespace-stripped payload, the unwrapped payload cleans to itself, and so
the two decode identically (their cleaned texts agree up to the surrounding
whitespace that structured-data parsing ignores). -/
theorem C8_fence_decode_tolerance (p : List Char)
    (hm : hasMarker (p ++ fence3) = false)
    (he : fence3.isSuffixOf p = false) :
    cleanText (wrapFence p) = pyStrip p ∧
    cleanText p = p ∧
    pyStrip (cleanText (wrapFence p)) = pyStrip (cleanText p) := by
  have hmp : hasMarker p = false := hasMarker_of_append_false hm
  have hs1 : (if fenceMarker.isPrefixOf (wrapFence p) = true
      then pyStrip (replaceMarker (wrapFence p)) else wrapFence p)
      = pyLStrip p ++ fence3 := by
    rw [if_pos (by rw [wrapFence, List.append_assoc]; exact isPrefixOf_append_self _ _)]
    rw [wrapFence, List.append_assoc, replaceMarker_marker_append _ hm,
      pyStrip_append_fence]
  have hclean1 : cleanText (wrapFence p) = pyStrip p := by
    simp only [cleanText]
    rw [hs1, if_pos (fence3_isSuffixOf_append (pyLStrip p)), take_append_fence,
      pyStrip_pyLStrip]
  have hs2 : (if fenceMarker.isPrefixOf p = true
      then pyStrip (replaceMarker p) else p) = p := by
    rw [if_neg (by rw [not_isPrefixOf_of_hasMarker_false hmp]; simp)]
  have hclean2 : cleanText p = p := by
    simp only [cleanText]
    rw [hs2, if_neg (by rw [he]; simp)]
  refine ⟨hclean1, hclean2, ?_⟩
  rw [hclean1, hclean2, pyStrip_pyStrip]

/-- Witness for C8's amended statement at the payload `{}`. -/
theorem C8_fence_decode_tolerance_witness :
    cleanText (wrapFence ['\x7b', '\x7d']) = pyStrip ['\x7b', '\x7d'] ∧
    cleanText ['\x7b', '\x7d'] = ['\x7b', '\x7d'] :=
  have h := C8_fence_decode_tolerance ['\x7b', '\x7d'] (by decide) (by decide)
  ⟨h.1, h.2.1⟩

end Boq
